import Mathlib

/-!
Verification of the Interaction Graph Recommendation Store
(`souschef/graph_recipe_store.py`): a shallow embedding of the key
normalizer, the vertex/edge upsert helpers, the recommendation queries
and the schema bootstrapper, together with proofs of the specified
properties.
-/

namespace Souschef

/-! ### Key normalizer (Python string primitives on `List Char`) -/

/-- Python `str.lower()` (ASCII case folding), char-wise on the data. -/
def lowerStr (s : List Char) : List Char :=
  s.map Char.toLower

/-- Python `str.strip()`: drop whitespace from both ends. -/
def stripStr (s : List Char) : List Char :=
  (((s.dropWhile Char.isWhitespace).reverse.dropWhile Char.isWhitespace)).reverse

/-- Python `str.split(',')`: split on every comma; the empty string
yields `[[]]` (one empty token). -/
def splitComma : List Char → List (List Char)
  | [] => [[]]
  | c :: cs =>
    match splitComma cs with
    | [] => [[]]
    | t :: ts => if c = ',' then [] :: t :: ts else (c :: t) :: ts

/-- Python `','.join(tokens)`. -/
def joinComma : List (List Char) → List Char
  | [] => []
  | [t] => t
  | t :: ts => t ++ ',' :: joinComma ts

/-- Lexicographic comparison of char lists by code point, the order
Python `list.sort()` uses on strings. -/
def lexLe : List Char → List Char → Bool
  | [], _ => true
  | _ :: _, [] => false
  | a :: as, b :: bs => if a < b then true else if b < a then false else lexLe as bs

/-- Wrapper making `lexLe` a decidable relation for `List.insertionSort`. -/
def lexLeP (a b : List Char) : Prop :=
  lexLe a b = true

instance : DecidableRel lexLeP :=
  fun a b => inferInstanceAs (Decidable (lexLe a b = true))

/-- The comma-separated tokens of an ingredients string after
lower-casing, trimming and per-token trimming, before sorting
(`graph_recipe_store.py:90`). -/
def ingredient_tokens (s : String) : List (List Char) :=
  (splitComma (stripStr (lowerStr s.data))).map stripStr

/-- Embeds `GraphRecipeStore.get_unique_ingredients_name`
(`graph_recipe_store.py:82-92`): lower-case, trim, split on commas,
trim each token, sort ascending, rejoin with commas. -/
def get_unique_ingredients_name (s : String) : String :=
  String.mk (joinComma (List.insertionSort lexLeP (ingredient_tokens s)))

/-- Embeds `GraphRecipeStore.get_unique_cuisine_name`
(`graph_recipe_store.py:136-144`): trim then lower-case. -/
def get_unique_cuisine_name (s : String) : String :=
  String.mk (lowerStr (stripStr s.data))

/-- Embeds `GraphRecipeStore.get_unique_recipe_name`
(`graph_recipe_store.py:188-196`): stringify, trim, lower-case. -/
def get_unique_recipe_name (s : String) : String :=
  String.mk (lowerStr (stripStr s.data))

theorem lexLe_total (a b : List Char) : lexLe a b = true ∨ lexLe b a = true := by
  induction a generalizing b with
  | nil => left; rfl
  | cons x xs ih =>
    cases b with
    | nil => right; rfl
    | cons y ys =>
      rcases lt_trichotomy x y with h | h | h
      · left; simp [lexLe, h]
      · subst h
        rcases ih ys with h2 | h2
        · left; simp [lexLe, lt_self_iff_false, h2]
        · right; simp [lexLe, lt_self_iff_false, h2]
      · right; simp [lexLe, h]

theorem lexLe_trans {a b c : List Char} (hab : lexLe a b = true)
    (hbc : lexLe b c = true) : lexLe a c = true := by
  induction a generalizing b c with
  | nil => rfl
  | cons x xs ih =>
    cases b with
    | nil => simp [lexLe] at hab
    | cons y ys =>
      cases c with
      | nil => simp [lexLe] at hbc
      | cons z zs =>
        simp only [lexLe] at hab hbc ⊢
        rcases lt_trichotomy x y with h1 | h1 | h1
        · rcases lt_trichotomy y z with h2 | h2 | h2
          · simp [lt_trans h1 h2]
          · subst h2; simp [h1]
          · simp [lt_asymm h2, h2] at hbc
        · subst h1
          rcases lt_trichotomy x z with h2 | h2 | h2
          · simp [h2]
          · subst h2
            simp only [lt_self_iff_false, if_false] at hab hbc ⊢
            exact ih hab hbc
          · simp [lt_asymm h2, h2] at hbc
        · simp [lt_asymm h1, h1] at hab

theorem lexLe_antisymm {a b : List Char} (hab : lexLe a b = true)
    (hba : lexLe b a = true) : a = b := by
  induction a generalizing b with
  | nil =>
    cases b with
    | nil => rfl
    | cons y ys => simp [lexLe] at hba
  | cons x xs ih =>
    cases b with
    | nil => simp [lexLe] at hab
    | cons y ys =>
      simp only [lexLe] at hab hba
      rcases lt_trichotomy x y with h | h | h
      · simp [lt_asymm h, h] at hba
      · subst h
        simp only [lt_self_iff_false, if_false] at hab hba
        rw [ih hab hba]
      · simp [lt_asymm h, h] at hab

instance : IsTotal (List Char) lexLeP :=
  ⟨lexLe_total⟩

instance : IsTrans (List Char) lexLeP :=
  ⟨fun _ _ _ => lexLe_trans⟩

instance : IsAntisymm (List Char) lexLeP :=
  ⟨fun _ _ => lexLe_antisymm⟩

/-- Sorting with `lexLeP` maps permuted token lists to the same list. -/
theorem insertionSort_eq_of_perm {l₁ l₂ : List (List Char)} (h : l₁.Perm l₂) :
    List.insertionSort lexLeP l₁ = List.insertionSort lexLeP l₂ := by
  refine List.eq_of_perm_of_sorted ?_ (List.sorted_insertionSort lexLeP l₁)
    (List.sorted_insertionSort lexLeP l₂)
  exact ((List.perm_insertionSort lexLeP l₁).trans h).trans
    (List.perm_insertionSort lexLeP l₂).symm

theorem toLower_of_isWhitespace {c : Char} (h : c.isWhitespace) :
    Char.toLower c = c := by
  simp only [Char.isWhitespace, Bool.or_eq_true, decide_eq_true_eq] at h
  rcases h with ((h | h) | h) | h <;> (subst h; decide)

theorem stripStr_eq_nil_iff (l : List Char) :
    stripStr l = [] ↔ ∀ c ∈ l, c.isWhitespace := by
  unfold stripStr
  rw [List.reverse_eq_nil_iff, List.dropWhile_eq_nil_iff]
  constructor
  · intro h c hc
    have hc2 : c ∈ l.takeWhile Char.isWhitespace ++ l.dropWhile Char.isWhitespace := by
      rw [List.takeWhile_append_dropWhile]
      exact hc
    rcases List.mem_append.mp hc2 with h1 | h1
    · exact List.mem_takeWhile_imp h1
    · exact h c (List.mem_reverse.mpr h1)
  · intro h c hc
    exact h c (List.Sublist.mem (List.mem_reverse.mp hc) (List.dropWhile_sublist _))

/-- C3: two ingredient strings whose trimmed, lower-cased comma tokens are
permutations of the same multiset get the identical normalized key; the key of
"Egg, Flour" and of "flour,egg" is "egg,flour"; an input that is empty after
trimming yields the empty-string key. -/
theorem C3_normalize_ingredients_key :
    (∀ s₁ s₂ : String, (ingredient_tokens s₁).Perm (ingredient_tokens s₂) →
      get_unique_ingredients_name s₁ = get_unique_ingredients_name s₂)
    ∧ get_unique_ingredients_name "Egg, Flour" = "egg,flour"
    ∧ get_unique_ingredients_name "flour,egg" = "egg,flour"
    ∧ (∀ s : String, stripStr s.data = [] → get_unique_ingredients_name s = "") := by
  refine ⟨?_, by decide, by decide, ?_⟩
  · intro s₁ s₂ h
    unfold get_unique_ingredients_name
    rw [insertionSort_eq_of_perm h]
  · intro s h
    have hws : ∀ c ∈ s.data, c.isWhitespace := (stripStr_eq_nil_iff _).mp h
    have hlow : lowerStr s.data = s.data := by
      unfold lowerStr
      have hmap : s.data.map Char.toLower = s.data.map id :=
        List.map_congr_left (fun c hc => toLower_of_isWhitespace (hws c hc))
      rw [hmap, List.map_id]
    unfold get_unique_ingredients_name ingredient_tokens
    rw [hlow, h]
    decide

/-- Witness for C3 at concrete inputs. -/
theorem C3_normalize_ingredients_key_witness :
    ((ingredient_tokens "Egg, Flour").Perm (ingredient_tokens "flour,egg")
      ∧ get_unique_ingredients_name "Egg, Flour" = get_unique_ingredients_name "flour,egg")
    ∧ (stripStr "  ".data = [] ∧ get_unique_ingredients_name "  " = "") :=
  ⟨⟨by decide, C3_normalize_ingredients_key.1 "Egg, Flour" "flour,egg" (by decide)⟩,
   ⟨by decide, C3_normalize_ingredients_key.2.2.2 "  " (by decide)⟩⟩

/-! ### Graph backend state and the vertex/edge helpers of the store -/

/-- A stored vertex: backend-assigned `id`, `label`, and the property map
(`name`, `title`, `detail`). -/
structure GVertex where
  id : Nat
  label : String
  props : List (String × String)
deriving DecidableEq, Repr

/-- Embeds `Vertex.get_property_value`: first binding of the property, if any. -/
def GVertex.get_property_value (v : GVertex) (p : String) : Option String :=
  (v.props.find? (fun q => q.fst == p)).map Prod.snd

/-- A stored edge: backend-assigned `id`, `label`, endpoints, and the
optional `count` property. -/
structure GEdge where
  id : Nat
  label : String
  out_v : Nat
  in_v : Nat
  count : Option Int
deriving DecidableEq, Repr

/-- The state of the remote graph backend: stored vertices and edges plus the
id counter for newly created elements. -/
structure GraphState where
  vertices : List GVertex
  edges : List GEdge
  next_id : Nat
deriving DecidableEq, Repr

/-- The graph with no vertices and no edges. -/
def empty_graph : GraphState :=
  ⟨[], [], 0⟩

/-- Semantics of the lookup query
`g.V().hasLabel(label).has(p, value)` built by `find_vertex` and
`add_vertex_if_not_exists` (`graph_recipe_store.py:343,359`). -/
def matching_vertices (s : GraphState) (label p : String) (value : Option String) :
    List GVertex :=
  s.vertices.filter (fun v => v.label == label && v.get_property_value p == value)

/-- Semantics of the duplicate-edge check
`g.V(out).outE().inV().hasId(in).path()` (`graph_recipe_store.py:375,391`):
every edge between the ordered endpoint pair, regardless of label. -/
def edges_between (s : GraphState) (a b : Nat) : List GEdge :=
  s.edges.filter (fun e => e.out_v == a && e.in_v == b)

/-- Embeds `GraphRecipeStore.find_vertex` (`graph_recipe_store.py:334-348`). -/
def find_vertex (s : GraphState) (label p : String) (value : Option String) :
    Option GVertex :=
  (matching_vertices s label p value).head?

/-- Embeds `GraphRecipeStore.add_vertex_if_not_exists`
(`graph_recipe_store.py:350-366`): return the first vertex matching
`(label, p = value)` unchanged, else create the supplied vertex. -/
def add_vertex_if_not_exists (s : GraphState) (vertex : GVertex) (p : String) :
    GVertex × GraphState :=
  match matching_vertices s vertex.label p (vertex.get_property_value p) with
  | v :: _ => (v, s)
  | [] =>
    let v := { vertex with id := s.next_id }
    (v, { s with vertices := s.vertices ++ [v], next_id := s.next_id + 1 })

/-- Embeds `GraphRecipeStore.add_edge_if_not_exists`
(`graph_recipe_store.py:368-381`): no-op when any edge exists between the
endpoints, else store the supplied edge. -/
def add_edge_if_not_exists (s : GraphState) (edge : GEdge) : GraphState :=
  match edges_between s edge.out_v edge.in_v with
  | _ :: _ => s
  | [] =>
    { s with edges := s.edges ++ [{ edge with id := s.next_id }],
             next_id := s.next_id + 1 }

/-- Embeds `GraphRecipeStore.add_update_edge` (`graph_recipe_store.py:383-404`):
when an edge exists between the endpoints, read its `count` (missing
treated as 0) and write back `count + 1` on that stored edge; else store
the supplied edge. -/
def add_update_edge (s : GraphState) (edge : GEdge) : GraphState :=
  match edges_between s edge.out_v edge.in_v with
  | m :: _ =>
    { s with edges := s.edges.map (fun x =>
        if x.id == m.id then { m with count := some (m.count.getD 0 + 1) } else x) }
  | [] =>
    { s with edges := s.edges ++ [{ edge with id := s.next_id }],
             next_id := s.next_id + 1 }

/-- The `selects`-edge write path (`record_*_request_for_user`,
e.g. `graph_recipe_store.py:120-132`): an upsert of a `selects` edge
carrying `count = 1`. -/
def record_interaction (a b : Nat) (s : GraphState) : GraphState :=
  add_update_edge s ⟨0, "selects", a, b, some 1⟩

/-- The `has`-edge write path (`graph_recipe_store.py:329-330`): a
create-if-absent of an unweighted `has` edge. -/
def record_membership (a b : Nat) (s : GraphState) : GraphState :=
  add_edge_if_not_exists s ⟨0, "has", a, b, none⟩

/-- C4: a second `add_vertex_if_not_exists` call with the same
`(label, key)` returns the vertex stored by the first call — same
identifier and the `title`/`detail` of the first writer — and leaves the graph state
unchanged. -/
theorem C4_get_or_create_vertex_first_writer_wins
    (s : GraphState) (v₁ v₂ : GVertex) (p : String)
    (hlabel : v₂.label = v₁.label)
    (hkey : v₂.get_property_value p = v₁.get_property_value p) :
    (add_vertex_if_not_exists (add_vertex_if_not_exists s v₁ p).2 v₂ p).1
      = (add_vertex_if_not_exists s v₁ p).1
    ∧ (add_vertex_if_not_exists (add_vertex_if_not_exists s v₁ p).2 v₂ p).2
      = (add_vertex_if_not_exists s v₁ p).2 := by
  cases hm : matching_vertices s v₁.label p (v₁.get_property_value p) with
  | cons v rest =>
    have h1 : add_vertex_if_not_exists s v₁ p = (v, s) := by
      unfold add_vertex_if_not_exists
      rw [hm]
    rw [h1]
    have hm2 : matching_vertices s v₂.label p (v₂.get_property_value p) = v :: rest := by
      rw [hlabel, hkey]
      exact hm
    unfold add_vertex_if_not_exists
    rw [hm2]
    exact ⟨rfl, rfl⟩
  | nil =>
    have h1 : add_vertex_if_not_exists s v₁ p =
        ({ v₁ with id := s.next_id },
         { s with vertices := s.vertices ++ [{ v₁ with id := s.next_id }],
                  next_id := s.next_id + 1 }) := by
      unfold add_vertex_if_not_exists
      rw [hm]
    rw [h1]
    have hprop : GVertex.get_property_value { v₁ with id := s.next_id } p
        = v₁.get_property_value p := rfl
    have hm2 : matching_vertices
        { s with vertices := s.vertices ++ [{ v₁ with id := s.next_id }],
                 next_id := s.next_id + 1 }
        v₂.label p (v₂.get_property_value p)
        = [{ v₁ with id := s.next_id }] := by
      unfold matching_vertices at hm ⊢
      rw [hlabel, hkey]
      simp only [List.filter_append, hm, List.nil_append, List.filter_cons,
        List.filter_nil]
      simp [GVertex.get_property_value]
    unfold add_vertex_if_not_exists
    rw [hm2]
    exact ⟨rfl, rfl⟩

/-- Witness for C4: creating a recipe vertex and re-adding it under the
same key with different `title`/`detail` returns the original vertex and
does not change the state. -/
theorem C4_get_or_create_vertex_first_writer_wins_witness :
    (add_vertex_if_not_exists
        (add_vertex_if_not_exists empty_graph
          ⟨0, "recipe", [("name", "r1"), ("title", "First"), ("detail", "d1")]⟩ "name").2
        ⟨0, "recipe", [("name", "r1"), ("title", "Second"), ("detail", "d2")]⟩ "name").1
      = (add_vertex_if_not_exists empty_graph
          ⟨0, "recipe", [("name", "r1"), ("title", "First"), ("detail", "d1")]⟩ "name").1
    ∧ (add_vertex_if_not_exists
        (add_vertex_if_not_exists empty_graph
          ⟨0, "recipe", [("name", "r1"), ("title", "First"), ("detail", "d1")]⟩ "name").2
        ⟨0, "recipe", [("name", "r1"), ("title", "Second"), ("detail", "d2")]⟩ "name").2
      = (add_vertex_if_not_exists empty_graph
          ⟨0, "recipe", [("name", "r1"), ("title", "First"), ("detail", "d1")]⟩ "name").2 :=
  C4_get_or_create_vertex_first_writer_wins empty_graph
    ⟨0, "recipe", [("name", "r1"), ("title", "First"), ("detail", "d1")]⟩
    ⟨0, "recipe", [("name", "r1"), ("title", "Second"), ("detail", "d2")]⟩
    "name" (by decide) (by decide)

/-! ### Behaviour of the edge upsert helpers -/

theorem add_update_edge_of_none {s : GraphState} {e : GEdge}
    (h : edges_between s e.out_v e.in_v = []) :
    add_update_edge s e =
      { s with edges := s.edges ++ [{ e with id := s.next_id }],
               next_id := s.next_id + 1 } := by
  unfold add_update_edge
  rw [h]

theorem add_update_edge_of_some {s : GraphState} {e m : GEdge} {t : List GEdge}
    (h : edges_between s e.out_v e.in_v = m :: t) :
    add_update_edge s e =
      { s with edges := s.edges.map (fun x =>
          if x.id == m.id then { m with count := some (m.count.getD 0 + 1) } else x) } := by
  unfold add_update_edge
  rw [h]

theorem add_edge_if_not_exists_of_none {s : GraphState} {e : GEdge}
    (h : edges_between s e.out_v e.in_v = []) :
    add_edge_if_not_exists s e =
      { s with edges := s.edges ++ [{ e with id := s.next_id }],
               next_id := s.next_id + 1 } := by
  unfold add_edge_if_not_exists
  rw [h]

theorem add_edge_if_not_exists_of_some {s : GraphState} {e m : GEdge} {t : List GEdge}
    (h : edges_between s e.out_v e.in_v = m :: t) :
    add_edge_if_not_exists s e = s := by
  unfold add_edge_if_not_exists
  rw [h]

/-- Updating an edge whose id is fresh for `l` leaves `l` unchanged. -/
theorem map_keep_of_fresh {l : List GEdge} {i : Nat}
    (h : ∀ e ∈ l, e.id < i) (m : GEdge) :
    l.map (fun x => if x.id == i then m else x) = l := by
  have hp : ∀ x ∈ l, (fun x => if x.id == i then m else x) x = id x := by
    intro x hx
    have hne : (x.id == i) = false := by
      simp only [beq_eq_false_iff_ne, ne_eq]
      exact Nat.ne_of_lt (h x hx)
    simp [hne]
  rw [List.map_congr_left hp, List.map_id]

/-- After `k` recorded interactions the stored state is the original one
plus a single `selects` edge carrying `count = k`. -/
theorem record_interaction_iterate
    (s : GraphState) (a b : Nat)
    (hempty : edges_between s a b = [])
    (hfresh : ∀ e ∈ s.edges, e.id < s.next_id) :
    ∀ N : Nat, 1 ≤ N →
      (record_interaction a b)^[N] s =
        { s with edges := s.edges ++ [⟨s.next_id, "selects", a, b, some (N : Int)⟩],
                 next_id := s.next_id + 1 } := by
  intro N hN
  induction N, hN using Nat.le_induction with
  | base =>
    rw [Function.iterate_one]
    unfold record_interaction
    rw [add_update_edge_of_none hempty]
    norm_num
  | succ n hn ih =>
    rw [Function.iterate_succ_apply', ih]
    unfold record_interaction
    have hempty2 : List.filter (fun e => e.out_v == a && e.in_v == b) s.edges = [] := by
      unfold edges_between at hempty
      exact hempty
    have hb : edges_between
        { s with edges := s.edges ++ [⟨s.next_id, "selects", a, b, some (n : Int)⟩],
                 next_id := s.next_id + 1 } a b
        = [⟨s.next_id, "selects", a, b, some (n : Int)⟩] := by
      unfold edges_between
      simp only [List.filter_append, hempty2, List.nil_append]
      simp
    rw [add_update_edge_of_some hb]
    simp only [List.map_append, map_keep_of_fresh hfresh]
    norm_num

/-- C2: from a state with no edge between the ordered pair `(a, b)` (and
fresh backend ids), `N ≥ 1` recorded interactions yield exactly the original
edges plus a single `selects` edge from `a` to `b` whose `count` equals `N`;
in particular the first call creates it with `count = 1`. -/
theorem C2_record_interaction_count_equals_calls
    (s : GraphState) (a b : Nat) (N : Nat)
    (hempty : edges_between s a b = [])
    (hfresh : ∀ e ∈ s.edges, e.id < s.next_id)
    (hN : 1 ≤ N) :
    (record_interaction a b)^[N] s =
      { s with edges := s.edges ++ [⟨s.next_id, "selects", a, b, some (N : Int)⟩],
               next_id := s.next_id + 1 }
    ∧ edges_between ((record_interaction a b)^[N] s) a b
        = [⟨s.next_id, "selects", a, b, some (N : Int)⟩]
    ∧ record_interaction a b s =
      { s with edges := s.edges ++ [⟨s.next_id, "selects", a, b, some 1⟩],
               next_id := s.next_id + 1 } := by
  have hmain := record_interaction_iterate s a b hempty hfresh N hN
  have h1 := record_interaction_iterate s a b hempty hfresh 1 (le_refl 1)
  rw [Function.iterate_one] at h1
  refine ⟨hmain, ?_, by simpa using h1⟩
  rw [hmain]
  unfold edges_between at hempty ⊢
  simp only [List.filter_append, hempty, List.nil_append]
  simp

/-- Witness for C2: three interactions on an empty graph produce one
`selects` edge with `count = 3`. -/
theorem C2_record_interaction_count_equals_calls_witness :
    (record_interaction 0 1)^[3] empty_graph =
      { empty_graph with edges := [⟨0, "selects", 0, 1, some 3⟩], next_id := 1 }
    ∧ edges_between ((record_interaction 0 1)^[3] empty_graph) 0 1
        = [⟨0, "selects", 0, 1, some 3⟩]
    ∧ record_interaction 0 1 empty_graph =
      { empty_graph with edges := [⟨0, "selects", 0, 1, some 1⟩], next_id := 1 } := by
  have h := C2_record_interaction_count_equals_calls empty_graph 0 1 3
    (by decide) (by intro e he; cases he) (by decide)
  simpa using h

/-- The operation `record_membership` is idempotent: once the edge exists every further
call is a no-op. -/
theorem record_membership_idem (a b : Nat) (s : GraphState) :
    record_membership a b (record_membership a b s) = record_membership a b s := by
  cases hm : edges_between s a b with
  | cons m t =>
    have h1 : record_membership a b s = s := add_edge_if_not_exists_of_some hm
    rw [h1, h1]
  | nil =>
    have h1 : record_membership a b s =
        { s with edges := s.edges ++ [⟨s.next_id, "has", a, b, none⟩],
                 next_id := s.next_id + 1 } := by
      rw [record_membership, add_edge_if_not_exists_of_none hm]
    have hempty2 : List.filter (fun e => e.out_v == a && e.in_v == b) s.edges = [] := hm
    have hb : edges_between
        { s with edges := s.edges ++ [⟨s.next_id, "has", a, b, none⟩],
                 next_id := s.next_id + 1 } a b
        = [⟨s.next_id, "has", a, b, none⟩] := by
      unfold edges_between
      simp only [List.filter_append, hempty2, List.nil_append]
      simp
    rw [h1]
    exact add_edge_if_not_exists_of_some hb

/-- C5: `N ≥ 1` calls of `record_membership` on the same ordered pair leave
exactly the state of the first call; from a state without an edge between the
pair, that single call stores exactly one `has` edge carrying no `count`, and
no later call mutates it. -/
theorem C5_record_membership_written_at_most_once
    (s : GraphState) (a b : Nat) (N : Nat) (hN : 1 ≤ N) :
    (record_membership a b)^[N] s = record_membership a b s
    ∧ (edges_between s a b = [] →
        record_membership a b s =
          { s with edges := s.edges ++ [⟨s.next_id, "has", a, b, none⟩],
                   next_id := s.next_id + 1 }
        ∧ edges_between (record_membership a b s) a b
            = [⟨s.next_id, "has", a, b, none⟩]) := by
  constructor
  · induction N, hN using Nat.le_induction with
    | base => rw [Function.iterate_one]
    | succ n hn ih =>
      rw [Function.iterate_succ_apply', ih, record_membership_idem]
  · intro hm
    have h1 : record_membership a b s =
        { s with edges := s.edges ++ [⟨s.next_id, "has", a, b, none⟩],
                 next_id := s.next_id + 1 } := by
      rw [record_membership, add_edge_if_not_exists_of_none hm]
    refine ⟨h1, ?_⟩
    rw [h1]
    have hempty2 : List.filter (fun e => e.out_v == a && e.in_v == b) s.edges = [] := hm
    unfold edges_between
    simp only [List.filter_append, hempty2, List.nil_append]
    simp

/-- Witness for C5: four membership calls on an empty graph store one
unweighted `has` edge, identical to the state after the first call. -/
theorem C5_record_membership_written_at_most_once_witness :
    (record_membership 2 3)^[4] empty_graph = record_membership 2 3 empty_graph
    ∧ (edges_between empty_graph 2 3 = [] →
        record_membership 2 3 empty_graph =
          { empty_graph with edges := [⟨0, "has", 2, 3, none⟩], next_id := 1 }
        ∧ edges_between (record_membership 2 3 empty_graph) 2 3
            = [⟨0, "has", 2, 3, none⟩]) := by
  have h := C5_record_membership_written_at_most_once empty_graph 2 3 4 (by decide)
  simpa using h

/-! ### The label-agnostic duplicate-edge check -/

/-- At most one stored edge per ordered endpoint pair, of any label. -/
def at_most_one_per_pair (s : GraphState) : Prop :=
  ∀ a b : Nat, (edges_between s a b).length ≤ 1

/-- In a list of edges with pairwise distinct ids, an id determines the
element. -/
theorem mem_id_unique {l : List GEdge} (hp : l.Pairwise (fun x y => x.id ≠ y.id))
    {m x : GEdge} (hm : m ∈ l) (hx : x ∈ l) (hid : x.id = m.id) : x = m := by
  induction l with
  | nil => cases hm
  | cons h t ih =>
    rcases List.pairwise_cons.mp hp with ⟨hh, hp2⟩
    rcases List.mem_cons.mp hm with rfl | hm2
    · rcases List.mem_cons.mp hx with rfl | hx2
      · rfl
      · exact absurd hid.symm (hh x hx2)
    · rcases List.mem_cons.mp hx with rfl | hx2
      · exact absurd hid (hh m hm2)
      · exact ih hp2 hm2 hx2

/-- A map that does not change whether elements pass the filter keeps the
filtered length. -/
theorem length_filter_map_eq {α : Type} (f : α → α) (p : α → Bool) (l : List α)
    (h : ∀ x ∈ l, p (f x) = p x) :
    (List.filter p (l.map f)).length = (List.filter p l).length := by
  induction l with
  | nil => rfl
  | cons x xs ih =>
    have hx := h x (List.mem_cons_self x xs)
    have ih2 := ih (fun y hy => h y (List.mem_cons_of_mem x hy))
    simp only [List.map_cons, List.filter_cons, hx]
    cases hpx : p x
    · simp [hpx, ih2]
    · simp [hpx, ih2]

/-- Appending a fresh edge for a previously empty pair preserves the
at-most-one invariant. -/
theorem append_preserves_at_most_one (s : GraphState) (e : GEdge)
    (hm : edges_between s e.out_v e.in_v = [])
    (h : at_most_one_per_pair s) :
    at_most_one_per_pair
      { s with edges := s.edges ++ [{ e with id := s.next_id }],
               next_id := s.next_id + 1 } := by
  intro a b
  unfold edges_between at hm ⊢
  simp only [List.filter_append, List.length_append]
  by_cases hc : ((e.out_v == a) && (e.in_v == b)) = true
  · have hab : e.out_v = a ∧ e.in_v = b := by simpa using hc
    obtain ⟨ha, hb⟩ := hab
    subst ha
    subst hb
    rw [hm]
    simp
  · rw [Bool.not_eq_true] at hc
    simp only [List.filter_cons, List.filter_nil]
    simp only [hc]
    have h2 := h a b
    unfold edges_between at h2
    simpa using h2

/-- C10: the duplicate-edge check matches any edge between the ordered
endpoints regardless of label: an existing edge makes
`add_edge_if_not_exists` a no-op and makes `add_update_edge` increment that
the `count` of that edge in place (keeping its label); hence both operations preserve
the at-most-one-edge-per-ordered-pair invariant. -/
theorem C10_edge_existence_check_ignores_label :
    (∀ (s : GraphState) (e m : GEdge) (t : List GEdge),
      edges_between s e.out_v e.in_v = m :: t → add_edge_if_not_exists s e = s)
    ∧ (∀ (s : GraphState) (e m : GEdge) (t : List GEdge),
      edges_between s e.out_v e.in_v = m :: t →
        add_update_edge s e = { s with edges := s.edges.map (fun x =>
          if x.id == m.id then { m with count := some (m.count.getD 0 + 1) } else x) })
    ∧ (∀ (s : GraphState) (e : GEdge), at_most_one_per_pair s →
        at_most_one_per_pair (add_edge_if_not_exists s e))
    ∧ (∀ (s : GraphState) (e : GEdge), at_most_one_per_pair s →
        s.edges.Pairwise (fun x y => x.id ≠ y.id) →
        at_most_one_per_pair (add_update_edge s e)) := by
  refine ⟨fun s e m t hm => add_edge_if_not_exists_of_some hm,
          fun s e m t hm => add_update_edge_of_some hm, ?_, ?_⟩
  · intro s e h
    cases hm : edges_between s e.out_v e.in_v with
    | cons m t => rw [add_edge_if_not_exists_of_some hm]; exact h
    | nil =>
      rw [add_edge_if_not_exists_of_none hm]
      exact append_preserves_at_most_one s e hm h
  · intro s e h hp
    cases hm : edges_between s e.out_v e.in_v with
    | nil =>
      rw [add_update_edge_of_none hm]
      exact append_preserves_at_most_one s e hm h
    | cons m t =>
      rw [add_update_edge_of_some hm]
      intro a b
      have hmem : m ∈ s.edges := by
        have : m ∈ edges_between s e.out_v e.in_v := by
          rw [hm]
          exact List.mem_cons_self m t
        exact List.mem_of_mem_filter this
      have hpoint : ∀ x ∈ s.edges,
          (fun y => y.out_v == a && y.in_v == b)
            ((fun x => if x.id == m.id
              then { m with count := some (m.count.getD 0 + 1) } else x) x)
          = (fun y => y.out_v == a && y.in_v == b) x := by
        intro x hx
        by_cases hid : (x.id == m.id) = true
        · have hxm : x = m := mem_id_unique hp hmem hx (by simpa using hid)
          subst hxm
          simp [hid]
        · rw [Bool.not_eq_true] at hid
          simp [hid]
      show (List.filter _ (s.edges.map _)).length ≤ 1
      rw [length_filter_map_eq _ _ _ hpoint]
      exact h a b

/-- Witness for C10: a lone `has` edge between the pair makes the
membership write a no-op and makes the interaction write increment the
`has` edge itself. -/
theorem C10_edge_existence_check_ignores_label_witness :
    (add_edge_if_not_exists
        ⟨[], [⟨5, "has", 0, 1, none⟩], 6⟩ ⟨0, "selects", 0, 1, some 1⟩
      = ⟨[], [⟨5, "has", 0, 1, none⟩], 6⟩)
    ∧ (add_update_edge
        ⟨[], [⟨5, "has", 0, 1, none⟩], 6⟩ ⟨0, "selects", 0, 1, some 1⟩
      = ⟨[], [⟨5, "has", 0, 1, some 1⟩], 6⟩)
    ∧ at_most_one_per_pair
        (add_edge_if_not_exists
          ⟨[], [⟨5, "has", 0, 1, none⟩], 6⟩ ⟨0, "selects", 0, 1, some 1⟩)
    ∧ at_most_one_per_pair
        (add_update_edge
          ⟨[], [⟨5, "has", 0, 1, none⟩], 6⟩ ⟨0, "selects", 0, 1, some 1⟩) := by
  have hone : at_most_one_per_pair ⟨[], [⟨5, "has", 0, 1, none⟩], 6⟩ := by
    intro a b
    exact List.length_filter_le _ _
  have hbetween : edges_between ⟨[], [⟨5, "has", 0, 1, none⟩], 6⟩
      ((⟨0, "selects", 0, 1, some 1⟩ : GEdge).out_v)
      ((⟨0, "selects", 0, 1, some 1⟩ : GEdge).in_v)
      = ⟨5, "has", 0, 1, none⟩ :: [] := by decide
  refine ⟨C10_edge_existence_check_ignores_label.1 _ _ _ _ hbetween, ?_,
    C10_edge_existence_check_ignores_label.2.2.1 _ ⟨0, "selects", 0, 1, some 1⟩ hone,
    C10_edge_existence_check_ignores_label.2.2.2 _ ⟨0, "selects", 0, 1, some 1⟩ hone
      (by simp)⟩
  have h2 := C10_edge_existence_check_ignores_label.2.1 _ _ _ _ hbetween
  rw [h2]
  decide

/-! ### Recommendation engine -/

/-- An entry of the `find_favorite_recipes_for_user` result
(`graph_recipe_store.py:240-243`). -/
structure RecipeInfo where
  id : Option String
  title : Option String
deriving DecidableEq, Repr

/-- An entry of the `get_recommended_recipes` result
(`graph_recipe_store.py:294-298`). -/
structure RecRecipe where
  id : Option String
  title : Option String
  recommendedUserCount : Nat
deriving DecidableEq, Repr

/-- The in-place `recommendedUserCount` increment of the first entry whose
`id` matches (`existing_recipes[0]`, `graph_recipe_store.py:300`). -/
def inc_first (rid : Option String) : List RecRecipe → List RecRecipe
  | [] => []
  | x :: xs =>
    if x.id == rid then
      { x with recommendedUserCount := x.recommendedUserCount + 1 } :: xs
    else
      x :: inc_first rid xs

/-- One iteration of the `get_recommended_recipes` loop body
(`graph_recipe_store.py:286-300`). -/
def get_recommended_recipes_step (count : Nat) (recipes : List RecRecipe)
    (v : GVertex) : List RecRecipe :=
  let recipe_id := v.get_property_value "name"
  if (recipes.filter (fun x => x.id == recipe_id)).length == 0 then
    if recipes.length ≥ count then recipes
    else recipes ++ [⟨recipe_id, v.get_property_value "title", 1⟩]
  else
    inc_first recipe_id recipes

/-- Embeds `GraphRecipeStore.get_recommended_recipes`
(`graph_recipe_store.py:282-303`), applied to the recipe vertex of each
traversal path (`path.objects[1]`). -/
def get_recommended_recipes (paths : List GVertex) (count : Nat) :
    List RecRecipe :=
  if paths.length > 0 then paths.foldl (get_recommended_recipes_step count) [] else []

/-- Ordering of edges by `count` descending, the semantics of
`order().by("count", decr)`. -/
def count_ge (x y : GEdge) : Prop :=
  y.count.getD 0 ≤ x.count.getD 0

instance : DecidableRel count_ge :=
  fun x y => inferInstanceAs (Decidable (y.count.getD 0 ≤ x.count.getD 0))

instance : IsTotal GEdge count_ge :=
  ⟨fun x y => le_total (y.count.getD 0) (x.count.getD 0)⟩

instance : IsTrans GEdge count_ge :=
  ⟨fun _ _ _ hxy hyz => le_trans hyz hxy⟩

/-- The ordered edge stream of the favorites query
(`g.V().hasLabel("person").has("name", u).outE().order().by("count", decr)`,
`graph_recipe_store.py:235`). -/
def ordered_out_edges (s : GraphState) (user_name : String) : List GEdge :=
  let users := s.vertices.filter (fun v =>
    v.label == "person" && v.get_property_value "name" == some user_name)
  List.insertionSort count_ge
    (s.edges.filter (fun e => users.any (fun v => v.id == e.out_v)))

/-- The favorites traversal result
(`...inV().hasLabel("recipe").limit(count)`, `graph_recipe_store.py:235-236`). -/
def favorite_query (s : GraphState) (user_name : String) (count : Nat) :
    List GVertex :=
  (((ordered_out_edges s user_name).filterMap (fun e =>
      s.vertices.find? (fun v => v.id == e.in_v))).filter
    (fun v => v.label == "recipe")).take count

/-- Embeds `GraphRecipeStore.find_favorite_recipes_for_user`
(`graph_recipe_store.py:227-246`). -/
def find_favorite_recipes_for_user (s : GraphState) (user_name : String)
    (count : Nat) : List RecipeInfo :=
  let recipe_vertices := favorite_query s user_name count
  if recipe_vertices.length > 0 then
    recipe_vertices.map (fun v =>
      ⟨v.get_property_value "name", v.get_property_value "title"⟩)
  else
    []

/-- The `has("count", gt(1))` edge test of the recommendation traversal
(`graph_recipe_store.py:260,277`); an absent `count` never matches. -/
def count_gt_one (e : GEdge) : Bool :=
  match e.count with
  | some c => 1 < c
  | none => false

/-- Ordering of (recipe, edge) traversers by edge `count` descending. -/
def pair_ge (x y : GVertex × GEdge) : Prop :=
  y.2.count.getD 0 ≤ x.2.count.getD 0

instance : DecidableRel pair_ge :=
  fun x y => inferInstanceAs (Decidable (y.2.count.getD 0 ≤ x.2.count.getD 0))

/-- The (recipe, `selects`-edge) traversers of the recommendation query
after the `count` filter and the global `order()` barrier
(`graph_recipe_store.py:258-260,275-277`). -/
def recommendation_pairs (s : GraphState) (anchor_label anchor_name : String) :
    List (GVertex × GEdge) :=
  let anchors := s.vertices.filter (fun v =>
    v.label == anchor_label && v.get_property_value "name" == some anchor_name)
  let has_edges := s.edges.filter (fun h =>
    h.label == "has" && anchors.any (fun a => a.id == h.in_v))
  let recipes := has_edges.filterMap (fun h =>
    s.vertices.find? (fun v => v.id == h.out_v))
  List.insertionSort pair_ge
    (recipes.flatMap (fun r =>
      (s.edges.filter (fun e => e.in_v == r.id && count_gt_one e)).map
        (fun e => (r, e))))

/-- The recipe vertices (`path.objects[1]`) of the paths surviving the
person filter `outV().hasLabel("person").has("name", neq(user))`
(`graph_recipe_store.py:261-262,278-279`). -/
def recommendation_paths (s : GraphState) (anchor_label anchor_name user_name : String) :
    List GVertex :=
  (recommendation_pairs s anchor_label anchor_name).filterMap (fun p =>
    match s.vertices.find? (fun v => v.id == p.2.out_v) with
    | some pv =>
      if pv.label == "person"
          && (match pv.get_property_value "name" with
              | some n => n != user_name
              | none => false) then
        some p.1
      else
        none
    | none => none)

/-- Embeds `GraphRecipeStore.find_recommended_recipes_for_ingredient`
(`graph_recipe_store.py:248-263`). -/
def find_recommended_recipes_for_ingredient (s : GraphState)
    (ingredients_str user_name : String) (count : Nat) : List RecRecipe :=
  get_recommended_recipes
    (recommendation_paths s "ingredient"
      (get_unique_ingredients_name ingredients_str) user_name) count

/-- Embeds `GraphRecipeStore.find_recommended_recipes_for_cuisine`
(`graph_recipe_store.py:265-280`). -/
def find_recommended_recipes_for_cuisine (s : GraphState)
    (cuisine user_name : String) (count : Nat) : List RecRecipe :=
  get_recommended_recipes
    (recommendation_paths s "cuisine"
      (get_unique_cuisine_name cuisine) user_name) count

theorem inc_first_append (rid : Option String) (l₁ : List RecRecipe)
    (x : RecRecipe) (l₂ : List RecRecipe)
    (h₁ : ∀ y ∈ l₁, (y.id == rid) = false) (hx : (x.id == rid) = true) :
    inc_first rid (l₁ ++ x :: l₂)
      = l₁ ++ { x with recommendedUserCount := x.recommendedUserCount + 1 } :: l₂ := by
  induction l₁ with
  | nil => simp [inc_first, hx]
  | cons y ys ih =>
    have hy := h₁ y (List.mem_cons_self y ys)
    simp only [List.cons_append, inc_first, hy, Bool.false_eq_true, if_false,
      List.append_eq]
    rw [ih (fun z hz => h₁ z (List.mem_cons_of_mem y hz))]

/-- Sample recipe vertices for the reducer example. -/
def recX : GVertex := ⟨1, "recipe", [("name", "x"), ("title", "tx")]⟩

def recY : GVertex := ⟨2, "recipe", [("name", "y"), ("title", "ty")]⟩

def recZ : GVertex := ⟨3, "recipe", [("name", "z"), ("title", "tz")]⟩

/-- C1: the reducer folds the traversal pairs in arrival order; a pair whose
recipe is already listed increments the `recommendedUserCount` of that entry
unconditionally, a new recipe is appended with count 1 only while fewer than
`limit` entries exist, and is dropped otherwise; `[X, Y, X, Z]` with limit 2
reduces to `[{X, 2}, {Y, 1}]`. -/
theorem C1_recommendation_reducer_streaming_cap :
    (∀ (paths : List GVertex) (count : Nat),
      get_recommended_recipes paths count
        = paths.foldl (get_recommended_recipes_step count) [])
    ∧ (∀ (count : Nat) (recipes : List RecRecipe) (v : GVertex),
        (∀ y ∈ recipes, (y.id == v.get_property_value "name") = false) →
        recipes.length < count →
        get_recommended_recipes_step count recipes v
          = recipes ++ [⟨v.get_property_value "name", v.get_property_value "title", 1⟩])
    ∧ (∀ (count : Nat) (recipes : List RecRecipe) (v : GVertex),
        (∀ y ∈ recipes, (y.id == v.get_property_value "name") = false) →
        count ≤ recipes.length →
        get_recommended_recipes_step count recipes v = recipes)
    ∧ (∀ (count : Nat) (l₁ l₂ : List RecRecipe) (x : RecRecipe) (v : GVertex),
        (∀ y ∈ l₁, (y.id == v.get_property_value "name") = false) →
        (x.id == v.get_property_value "name") = true →
        get_recommended_recipes_step count (l₁ ++ x :: l₂) v
          = l₁ ++ { x with recommendedUserCount := x.recommendedUserCount + 1 } :: l₂)
    ∧ get_recommended_recipes [recX, recY, recX, recZ] 2
        = [⟨some "x", some "tx", 2⟩, ⟨some "y", some "ty", 1⟩] := by
  refine ⟨?_, ?_, ?_, ?_, by decide⟩
  · intro paths count
    cases paths with
    | nil => rfl
    | cons p ps => simp [get_recommended_recipes]
  · intro count recipes v h hlt
    have hfil : recipes.filter (fun x => x.id == v.get_property_value "name") = [] :=
      List.filter_eq_nil_iff.mpr (fun y hy => by simp [h y hy])
    unfold get_recommended_recipes_step
    simp [hfil, not_le.mpr hlt]
  · intro count recipes v h hge
    have hfil : recipes.filter (fun x => x.id == v.get_property_value "name") = [] :=
      List.filter_eq_nil_iff.mpr (fun y hy => by simp [h y hy])
    unfold get_recommended_recipes_step
    simp [hfil, hge]
  · intro count l₁ l₂ x v h₁ hx
    have hfil1 : l₁.filter (fun y => y.id == v.get_property_value "name") = [] :=
      List.filter_eq_nil_iff.mpr (fun y hy => by simp [h₁ y hy])
    unfold get_recommended_recipes_step
    simp only [List.filter_append, hfil1, List.nil_append, List.filter_cons, hx,
      if_true, List.length_cons]
    simp only [Nat.succ_ne_zero, beq_iff_eq, if_false]
    exact inc_first_append _ _ _ _ h₁ hx

/-- Witness for C1: each reducer case at a concrete input. -/
theorem C1_recommendation_reducer_streaming_cap_witness :
    get_recommended_recipes_step 2 [] recX = [⟨some "x", some "tx", 1⟩]
    ∧ get_recommended_recipes_step 1 [⟨some "y", some "ty", 1⟩] recX
        = [⟨some "y", some "ty", 1⟩]
    ∧ get_recommended_recipes_step 2
        ([⟨some "y", some "ty", 1⟩] ++ ⟨some "x", some "tx", 1⟩ :: []) recX
        = [⟨some "y", some "ty", 1⟩] ++ ⟨some "x", some "tx", 2⟩ :: [] := by
  refine ⟨?_, ?_, ?_⟩
  · have h := C1_recommendation_reducer_streaming_cap.2.1 2 [] recX
      (by intro y hy; cases hy) (by decide)
    simpa using h
  · have h := C1_recommendation_reducer_streaming_cap.2.2.1 1
      [⟨some "y", some "ty", 1⟩] recX (by decide) (by decide)
    simpa using h
  · have h := C1_recommendation_reducer_streaming_cap.2.2.2.1 2
      [⟨some "y", some "ty", 1⟩] [] ⟨some "x", some "tx", 1⟩ recX
      (by decide) (by decide)
    simpa using h

instance : IsTotal (GVertex × GEdge) pair_ge :=
  ⟨fun x y => le_total (y.2.count.getD 0) (x.2.count.getD 0)⟩

instance : IsTrans (GVertex × GEdge) pair_ge :=
  ⟨fun _ _ _ hxy hyz => le_trans hyz hxy⟩

/-- A user with recipe edges A(count 5), B(count 2), C(count 5). -/
def favorite_example : GraphState :=
  ⟨[⟨0, "person", [("name", "u")]⟩,
    ⟨1, "recipe", [("name", "a"), ("title", "ta")]⟩,
    ⟨2, "recipe", [("name", "b"), ("title", "tb")]⟩,
    ⟨3, "recipe", [("name", "c"), ("title", "tc")]⟩],
   [⟨10, "selects", 0, 1, some 5⟩,
    ⟨11, "selects", 0, 2, some 2⟩,
    ⟨12, "selects", 0, 3, some 5⟩],
   13⟩

/-- C6: the favorites query orders the outgoing edges of the user by `count`
descending, keeps recipe destinations, and returns at most `limit` of them;
for edges to A(5), B(2), C(5) and limit 2 the result has the two
weight-5 recipes A and C and not B. -/
theorem C6_favorite_recipes_ranking :
    (∀ (s : GraphState) (u : String) (count : Nat),
      (find_favorite_recipes_for_user s u count).length ≤ count)
    ∧ (∀ (s : GraphState) (u : String),
      List.Sorted count_ge (ordered_out_edges s u))
    ∧ (find_favorite_recipes_for_user favorite_example "u" 2).length = 2
    ∧ (⟨some "a", some "ta"⟩ : RecipeInfo)
        ∈ find_favorite_recipes_for_user favorite_example "u" 2
    ∧ (⟨some "c", some "tc"⟩ : RecipeInfo)
        ∈ find_favorite_recipes_for_user favorite_example "u" 2
    ∧ (find_favorite_recipes_for_user favorite_example "u" 2).all
        (fun r => r.id != some "b") = true := by
  refine ⟨?_, ?_, by decide, by decide, by decide, by decide⟩
  · intro s u count
    unfold find_favorite_recipes_for_user
    by_cases h : (favorite_query s u count).length > 0
    · simp only [h, if_true, List.length_map]
      unfold favorite_query
      exact List.length_take_le _ _
    · simp [h]
  · intro s u
    unfold ordered_out_edges
    exact List.sorted_insertionSort count_ge _

/-- C8: a traversal with no matching elements — in particular the empty
graph — makes both the favorites query and the recommendation queries
return the empty list (the embedded functions are total, so no error is
possible). -/
theorem C8_empty_traversal_returns_empty :
    (∀ (s : GraphState) (u : String) (count : Nat),
      favorite_query s u count = [] → find_favorite_recipes_for_user s u count = [])
    ∧ (∀ (s : GraphState) (al an u : String) (count : Nat),
      recommendation_paths s al an u = [] →
        get_recommended_recipes (recommendation_paths s al an u) count = [])
    ∧ (∀ (u : String) (count : Nat),
        find_favorite_recipes_for_user empty_graph u count = [])
    ∧ (∀ (istr u : String) (count : Nat),
        find_recommended_recipes_for_ingredient empty_graph istr u count = [])
    ∧ (∀ (cstr u : String) (count : Nat),
        find_recommended_recipes_for_cuisine empty_graph cstr u count = []) := by
  refine ⟨?_, ?_, ?_, ?_, ?_⟩
  · intro s u count h
    unfold find_favorite_recipes_for_user
    rw [h]
    simp
  · intro s al an u count h
    rw [h]
    rfl
  · intro u count
    simp [find_favorite_recipes_for_user, favorite_query, ordered_out_edges,
      empty_graph, List.take_nil, List.insertionSort]
  · intro istr u count
    rfl
  · intro cstr u count
    rfl

/-- Witness for C8 at concrete empty traversals. -/
theorem C8_empty_traversal_returns_empty_witness :
    (favorite_query empty_graph "u" 5 = []
      ∧ find_favorite_recipes_for_user empty_graph "u" 5 = [])
    ∧ (recommendation_paths empty_graph "ingredient" "tomato" "u" = []
      ∧ get_recommended_recipes
          (recommendation_paths empty_graph "ingredient" "tomato" "u") 5 = []) :=
  ⟨⟨by decide, C8_empty_traversal_returns_empty.1 empty_graph "u" 5 (by decide)⟩,
   ⟨by decide, C8_empty_traversal_returns_empty.2.1 empty_graph "ingredient"
      "tomato" "u" 5 (by decide)⟩⟩

theorem mem_inc_first_ids {rid : Option String} {l : List RecRecipe} {r : RecRecipe}
    (h : r ∈ inc_first rid l) : ∃ x ∈ l, r.id = x.id := by
  induction l with
  | nil => simp [inc_first] at h
  | cons x xs ih =>
    simp only [inc_first] at h
    by_cases hx : (x.id == rid) = true
    · rw [if_pos hx] at h
      rcases List.mem_cons.mp h with rfl | h2
      · exact ⟨x, List.mem_cons_self x xs, rfl⟩
      · exact ⟨r, List.mem_cons_of_mem _ h2, rfl⟩
    · rw [if_neg hx] at h
      rcases List.mem_cons.mp h with rfl | h2
      · exact ⟨r, List.mem_cons_self r xs, rfl⟩
      · rcases ih h2 with ⟨y, hy, hid⟩
        exact ⟨y, List.mem_cons_of_mem _ hy, hid⟩

theorem step_mem_ids {count : Nat} {acc : List RecRecipe} {v : GVertex} {r : RecRecipe}
    (h : r ∈ get_recommended_recipes_step count acc v) :
    (∃ x ∈ acc, r.id = x.id) ∨ r.id = v.get_property_value "name" := by
  simp only [get_recommended_recipes_step] at h
  by_cases hc : ((acc.filter (fun x => x.id == v.get_property_value "name")).length == 0) = true
  · rw [if_pos hc] at h
    by_cases hl : acc.length ≥ count
    · rw [if_pos hl] at h
      exact Or.inl ⟨r, h, rfl⟩
    · rw [if_neg hl] at h
      rcases List.mem_append.mp h with h2 | h2
      · exact Or.inl ⟨r, h2, rfl⟩
      · rcases List.mem_cons.mp h2 with rfl | h3
        · exact Or.inr rfl
        · cases h3
  · rw [if_neg hc] at h
    rcases mem_inc_first_ids h with ⟨x, hx, hid⟩
    exact Or.inl ⟨x, hx, hid⟩

theorem foldl_step_mem_ids (count : Nat) (paths : List GVertex) :
    ∀ (acc : List RecRecipe) (r : RecRecipe),
      r ∈ paths.foldl (get_recommended_recipes_step count) acc →
      (∃ x ∈ acc, r.id = x.id)
        ∨ r.id ∈ paths.map (fun v => v.get_property_value "name") := by
  induction paths with
  | nil => exact fun acc r h => Or.inl ⟨r, h, rfl⟩
  | cons v vs ih =>
    intro acc r h
    rw [List.foldl_cons] at h
    rcases ih _ r h with ⟨x, hx, hid⟩ | h2
    · rcases step_mem_ids hx with ⟨y, hy, hid2⟩ | h3
      · exact Or.inl ⟨y, hy, hid.trans hid2⟩
      · refine Or.inr ?_
        rw [List.map_cons, hid, h3]
        exact List.mem_cons_self _ _
    · refine Or.inr ?_
      rw [List.map_cons]
      exact List.mem_cons_of_mem _ h2

theorem get_recommended_mem_ids {paths : List GVertex} {count : Nat} {r : RecRecipe}
    (h : r ∈ get_recommended_recipes paths count) :
    r.id ∈ paths.map (fun v => v.get_property_value "name") := by
  unfold get_recommended_recipes at h
  by_cases hp : paths.length > 0
  · rw [if_pos hp] at h
    rcases foldl_step_mem_ids count paths [] r h with ⟨x, hx, _⟩ | h2
    · cases hx
    · exact h2
  · rw [if_neg hp] at h
    cases h

theorem recommendation_paths_mem {s : GraphState} {al an u : String} {v : GVertex}
    (hv : v ∈ recommendation_paths s al an u) :
    ∃ e ∈ s.edges, e.in_v = v.id ∧ count_gt_one e = true
      ∧ ∃ pv ∈ s.vertices, pv.id = e.out_v ∧ pv.label = "person"
        ∧ ∃ n, pv.get_property_value "name" = some n ∧ n ≠ u := by
  unfold recommendation_paths at hv
  rcases List.mem_filterMap.mp hv with ⟨p, hp, hf⟩
  cases hfind : s.vertices.find? (fun w => w.id == p.2.out_v) with
  | none =>
    rw [hfind] at hf
    simp at hf
  | some pv =>
    rw [hfind] at hf
    dsimp only at hf
    by_cases hcond : (pv.label == "person"
        && (match pv.get_property_value "name" with
            | some n => n != u
            | none => false)) = true
    · rw [if_pos hcond] at hf
      have hpv : p.1 = v := Option.some.inj hf
      unfold recommendation_pairs at hp
      have hp2 := ((List.perm_insertionSort pair_ge _).mem_iff).mp hp
      rcases List.mem_flatMap.mp hp2 with ⟨rv, _, hpm⟩
      rcases List.mem_map.mp hpm with ⟨e, he, hpe⟩
      subst hpe
      rcases List.mem_filter.mp he with ⟨hee, hcond2⟩
      rw [Bool.and_eq_true] at hcond2 hcond
      obtain ⟨hin, hgt⟩ := hcond2
      obtain ⟨hlabel, hname⟩ := hcond
      subst hpv
      refine ⟨e, hee, by simpa using hin, hgt, pv,
        List.mem_of_find?_eq_some hfind, ?_, by simpa using hlabel, ?_⟩
      · have := List.find?_some hfind
        simpa using this
      · cases hget : pv.get_property_value "name" with
        | none => rw [hget] at hname; simp at hname
        | some n =>
          rw [hget] at hname
          exact ⟨n, rfl, by simpa using hname⟩
    · rw [if_neg hcond] at hf
      simp at hf

theorem recommendation_paths_not_mem {s : GraphState} {al an u : String} {R : GVertex}
    (hall : ∀ e ∈ s.edges, e.in_v = R.id → count_gt_one e = false) :
    R ∉ recommendation_paths s al an u := by
  intro hmem
  rcases recommendation_paths_mem hmem with ⟨e, he, hin, hgt, _⟩
  rw [hall e he hin] at hgt
  cases hgt

/-- C7: every recommendation output entry derives from a traversal path,
and every traversal path is backed by an incoming edge with `count > 1`
whose origin is a `person` vertex with a name different from the requesting
user; a vertex all of whose incoming edges have `count ≤ 1` never appears
in the traversal. -/
theorem C7_recommendation_count_and_user_filters :
    (∀ (s : GraphState) (istr u : String) (c : Nat) (r : RecRecipe),
      r ∈ find_recommended_recipes_for_ingredient s istr u c →
      r.id ∈ (recommendation_paths s "ingredient"
        (get_unique_ingredients_name istr) u).map (fun v => v.get_property_value "name"))
    ∧ (∀ (s : GraphState) (cstr u : String) (c : Nat) (r : RecRecipe),
      r ∈ find_recommended_recipes_for_cuisine s cstr u c →
      r.id ∈ (recommendation_paths s "cuisine"
        (get_unique_cuisine_name cstr) u).map (fun v => v.get_property_value "name"))
    ∧ (∀ (s : GraphState) (al an u : String) (v : GVertex),
        v ∈ recommendation_paths s al an u →
        ∃ e ∈ s.edges, e.in_v = v.id ∧ count_gt_one e = true
          ∧ ∃ pv ∈ s.vertices, pv.id = e.out_v ∧ pv.label = "person"
            ∧ ∃ n, pv.get_property_value "name" = some n ∧ n ≠ u)
    ∧ (∀ (s : GraphState) (al an u : String) (R : GVertex),
        (∀ e ∈ s.edges, e.in_v = R.id → count_gt_one e = false) →
        R ∉ recommendation_paths s al an u) :=
  ⟨fun _ _ _ _ _ h => get_recommended_mem_ids h,
   fun _ _ _ _ _ h => get_recommended_mem_ids h,
   fun _ _ _ _ _ hv => recommendation_paths_mem hv,
   fun _ _ _ _ _ hall => recommendation_paths_not_mem hall⟩

/-- Ingredient anchor `tomato` with recipe r1 reinforced (count 3) by bob
and recipe r2 selected once by bob. -/
def rec_example : GraphState :=
  ⟨[⟨0, "ingredient", [("name", "tomato")]⟩,
    ⟨1, "recipe", [("name", "r1"), ("title", "T")]⟩,
    ⟨2, "person", [("name", "alice")]⟩,
    ⟨3, "person", [("name", "bob")]⟩,
    ⟨4, "recipe", [("name", "r2"), ("title", "U")]⟩],
   [⟨10, "has", 1, 0, none⟩,
    ⟨11, "selects", 3, 1, some 3⟩,
    ⟨12, "has", 4, 0, none⟩,
    ⟨13, "selects", 3, 4, some 1⟩],
   14⟩

/-- The same graph with a cuisine anchor `thai`. -/
def rec_example_cuisine : GraphState :=
  ⟨[⟨0, "cuisine", [("name", "thai")]⟩,
    ⟨1, "recipe", [("name", "r1"), ("title", "T")]⟩,
    ⟨2, "person", [("name", "alice")]⟩,
    ⟨3, "person", [("name", "bob")]⟩,
    ⟨4, "recipe", [("name", "r2"), ("title", "U")]⟩],
   [⟨10, "has", 1, 0, none⟩,
    ⟨11, "selects", 3, 1, some 3⟩,
    ⟨12, "has", 4, 0, none⟩,
    ⟨13, "selects", 3, 4, some 1⟩],
   14⟩

/-- Witness for C7 on `rec_example`: the output entry r1 comes from the
paths, its path is backed by the count-3 edge of bob, and the once-selected r2
is excluded from the paths. -/
theorem C7_recommendation_count_and_user_filters_witness :
    ((some "r1" : Option String) ∈ (recommendation_paths rec_example "ingredient"
        (get_unique_ingredients_name "Tomato ") "alice").map
        (fun v => v.get_property_value "name"))
    ∧ ((some "r1" : Option String) ∈ (recommendation_paths rec_example_cuisine "cuisine"
        (get_unique_cuisine_name "Thai ") "alice").map
        (fun v => v.get_property_value "name"))
    ∧ (∃ e ∈ rec_example.edges,
        e.in_v = (⟨1, "recipe", [("name", "r1"), ("title", "T")]⟩ : GVertex).id
        ∧ count_gt_one e = true
        ∧ ∃ pv ∈ rec_example.vertices, pv.id = e.out_v ∧ pv.label = "person"
          ∧ ∃ n, pv.get_property_value "name" = some n ∧ n ≠ "alice")
    ∧ (⟨4, "recipe", [("name", "r2"), ("title", "U")]⟩ : GVertex)
        ∉ recommendation_paths rec_example "ingredient" "tomato" "alice" :=
  ⟨C7_recommendation_count_and_user_filters.1 rec_example "Tomato " "alice" 5
      ⟨some "r1", some "T", 1⟩ (by decide),
   C7_recommendation_count_and_user_filters.2.1 rec_example_cuisine "Thai " "alice" 5
      ⟨some "r1", some "T", 1⟩ (by decide),
   C7_recommendation_count_and_user_filters.2.2.1 rec_example "ingredient" "tomato"
      "alice" ⟨1, "recipe", [("name", "r1"), ("title", "T")]⟩ (by decide),
   C7_recommendation_count_and_user_filters.2.2.2 rec_example "ingredient" "tomato"
      "alice" ⟨4, "recipe", [("name", "r2"), ("title", "U")]⟩ (by decide)⟩

/-! ### Schema bootstrapper (`GraphRecipeStore.init`) -/

/-- Embeds `ibm_graph.schema.PropertyKey(name, dataType, cardinality)`. -/
structure PropertyKey where
  name : String
  dataType : String
  cardinality : String
deriving DecidableEq, Repr

/-- Embeds `ibm_graph.schema.VertexLabel(name)`. -/
structure VertexLabel where
  name : String
deriving DecidableEq, Repr

/-- Embeds `ibm_graph.schema.EdgeLabel(name)`. -/
structure EdgeLabel where
  name : String
deriving DecidableEq, Repr

/-- Embeds `ibm_graph.schema.VertexIndex(name, propertyKeys, composite, unique)`. -/
structure VertexIndex where
  name : String
  propertyKeys : List String
  composite : Bool
  unique : Bool
deriving DecidableEq, Repr

/-- An edge index entry (the fifth schema list, always empty here). -/
structure EdgeIndex where
  name : String
deriving DecidableEq, Repr

/-- Embeds `ibm_graph.schema.Schema`. -/
structure Schema where
  property_keys : List PropertyKey
  vertex_labels : List VertexLabel
  edge_labels : List EdgeLabel
  vertex_indexes : List VertexIndex
  edge_indexes : List EdgeIndex
deriving DecidableEq, Repr

/-- The graph-service backend as seen by `init`: existing graphs, the
selected graph, per-graph schemas, and counters for the two mutating
calls. -/
structure BootState where
  graphs : List String
  active_graph : Option String
  schemas : List (String × Schema)
  create_graph_calls : Nat
  save_schema_calls : Nat
deriving DecidableEq, Repr

/-- A backend with no graphs. -/
def empty_backend : BootState :=
  ⟨[], none, [], 0, 0⟩

/-- Embeds `graph_client.create_graph` (`graph_recipe_store.py:34`). -/
def create_graph (gid : String) (s : BootState) : BootState :=
  { s with graphs := s.graphs ++ [gid],
           create_graph_calls := s.create_graph_calls + 1 }

/-- Embeds `graph_client.set_graph` (`graph_recipe_store.py:36`). -/
def set_graph (gid : String) (s : BootState) : BootState :=
  { s with active_graph := some gid }

/-- Embeds `graph_client.get_schema` (`graph_recipe_store.py:39`). -/
def get_schema (s : BootState) : Option Schema :=
  match s.active_graph with
  | some g => (s.schemas.find? (fun p => p.fst == g)).map Prod.snd
  | none => none

/-- Embeds `graph_client.save_schema` (`graph_recipe_store.py:62`). -/
def save_schema (sch : Schema) (s : BootState) : BootState :=
  match s.active_graph with
  | some g =>
    { s with schemas := (s.schemas.filter (fun p => p.fst != g)) ++ [(g, sch)],
             save_schema_calls := s.save_schema_calls + 1 }
  | none => s

/-- The schema saved by `init` (`graph_recipe_store.py:43-61`). -/
def souschef_schema : Schema :=
  ⟨[⟨"name", "String", "SINGLE"⟩,
    ⟨"title", "String", "SINGLE"⟩,
    ⟨"detail", "String", "SINGLE"⟩],
   [⟨"person"⟩, ⟨"ingredient"⟩, ⟨"cuisine"⟩, ⟨"recipe"⟩],
   [⟨"selects"⟩],
   [⟨"vertexByName", ["name"], true, true⟩],
   []⟩

/-- Embeds `GraphRecipeStore.init` (`graph_recipe_store.py:25-64`): create the
graph when missing, select it, and save the schema when the stored schema
has no property keys. -/
def init (graph_id : String) (s : BootState) : BootState :=
  let s1 := if graph_id ∈ s.graphs then s else create_graph graph_id s
  let s2 := set_graph graph_id s1
  match get_schema s2 with
  | some sch => if sch.property_keys.length > 0 then s2 else save_schema souschef_schema s2
  | none => save_schema souschef_schema s2

/-- C9: on an empty backend `init` creates the graph and saves the schema
with exactly the property keys name/title/detail, the four vertex labels,
the single edge label `selects` and a unique index on `name` (one
create-graph and one save-schema call); a second run performs no further
create-graph or save-schema call and leaves the state unchanged. -/
theorem C9_init_idempotent (gid : String) :
    (init gid empty_backend).create_graph_calls = 1
    ∧ (init gid empty_backend).save_schema_calls = 1
    ∧ (init gid empty_backend).graphs = [gid]
    ∧ get_schema (init gid empty_backend) = some souschef_schema
    ∧ souschef_schema.property_keys.map PropertyKey.name = ["name", "title", "detail"]
    ∧ souschef_schema.vertex_labels = [⟨"person"⟩, ⟨"ingredient"⟩, ⟨"cuisine"⟩, ⟨"recipe"⟩]
    ∧ souschef_schema.edge_labels = [⟨"selects"⟩]
    ∧ souschef_schema.vertex_indexes = [⟨"vertexByName", ["name"], true, true⟩]
    ∧ init gid (init gid empty_backend) = init gid empty_backend := by
  have h1 : init gid empty_backend =
      ⟨[gid], some gid, [(gid, souschef_schema)], 1, 1⟩ := by
    unfold init
    simp [empty_backend, create_graph, set_graph, get_schema, save_schema]
  have h2 : init gid ⟨[gid], some gid, [(gid, souschef_schema)], 1, 1⟩ =
      ⟨[gid], some gid, [(gid, souschef_schema)], 1, 1⟩ := by
    unfold init
    simp [get_schema, set_graph, souschef_schema, List.find?]
  rw [h1]
  exact ⟨rfl, rfl, rfl, by simp [get_schema, List.find?], by decide, by decide,
    by decide, by decide, h2⟩

end Souschef
